import Mathlib

/-!
Shallow embedding of the many-worlds multiverse simulation engine
(multiverse/simulation.py) and proofs about its branching behaviour.

Modelling conventions:
* Python floats are idealized as real numbers, complex amplitudes as
  elements of the complex field.
* Python dictionaries become insertion-ordered association lists,
  Python sets become duplicate-free insertion lists.
* Raising code becomes Except-valued functions.  Where Python leaves a
  mutated object behind after an exception, the Except model discards
  the partial mutation; no verified property inspects state after a
  raised error.
* The process-wide hook registries become explicit parameters holding
  the registered callables at call time.  A hook receives the universe
  it may mutate and reports the state it leaves behind together with
  the exception it raised, if any.
-/

noncomputable section

/-- The numerical tolerance EPS = 1e-9 from simulation.py. -/
def EPS : ℝ := 1 / 1000000000

/-- Association-list lookup, modelling Python dict indexing and the
membership test on dict keys. -/
def alookup {α : Type} : List (String × α) → String → Option α
  | [], _ => none
  | (k, v) :: rest, key => if k = key then some v else alookup rest key

/-- A quantum system: insertion-ordered mapping from basis-state label
to complex amplitude (class QuantumSystem of simulation.py). -/
structure QuantumSystem where
  amplitudes : List (String × ℂ)

/-- Sum of the squared amplitude magnitudes of an amplitude list. -/
def normSqSum (l : List (String × ℂ)) : ℝ :=
  (l.map (fun p => Complex.abs p.2 ^ 2)).sum

/-- Division of every amplitude by the square root of the total squared
magnitude, as performed by QuantumSystem.normalize. -/
def normalizeAmps (l : List (String × ℂ)) : List (String × ℂ) :=
  l.map (fun p => (p.1, p.2 / ((Real.sqrt (normSqSum l) : ℝ) : ℂ)))

/-- QuantumSystem construction: copy the mapping and normalize, failing
on an all-zero state or on a failed post-normalization check. -/
def mkQuantumSystem (l : List (String × ℂ)) : Except String QuantumSystem :=
  if normSqSum l < EPS then
    .error "All amplitudes are zero, cannot normalize."
  else if EPS < |normSqSum (normalizeAmps l) - 1| then
    .error "Normalization failed: Probabilities do not sum to 1.0."
  else
    .ok ⟨normalizeAmps l⟩

/-- num_qubits: the common label length, 0 for an empty mapping, an
error when two labels have different lengths. -/
def QuantumSystem.numQubitsE (q : QuantumSystem) : Except String Nat :=
  match q.amplitudes with
  | [] => .ok 0
  | (s, _) :: rest =>
    if rest.all (fun p => p.1.length == s.length) then .ok s.length
    else .error "All state keys must have the same length (number of qubits)."

/-- Born probabilities per label. -/
def QuantumSystem.probabilities (q : QuantumSystem) : List (String × ℝ) :=
  q.amplitudes.map (fun p => (p.1, Complex.abs p.2 ^ 2))

/-- The characters of a label at the given positions, in order; none as
soon as a position is out of range (a Python IndexError). -/
def projChars (s : String) : List Nat → Option (List Char)
  | [] => some []
  | i :: rest =>
    match s.data.get? i with
    | none => none
    | some c =>
      match projChars s rest with
      | none => none
      | some cs => some (c :: cs)

/-- The projection of a label onto the given character positions; none
when a position is out of range (a Python IndexError). -/
def projLabel (s : String) (qubits : List Nat) : Option String :=
  (projChars s qubits).map (fun cs => String.mk cs)

/-- Accumulate v into the entry for k, appending a new entry when k is
absent (the Python idiom result.get(bits, 0.0) + v). -/
def bumpAssoc : List (String × ℝ) → String → ℝ → List (String × ℝ)
  | [], k, v => [(k, v)]
  | (k0, v0) :: rest, k, v =>
    if k0 = k then (k0, v0 + v) :: rest else (k0, v0) :: bumpAssoc rest k v

/-- The accumulation loop of subset_probabilities. -/
def subsetProbsGo : List (String × ℂ) → List Nat → List (String × ℝ) →
    Except String (List (String × ℝ))
  | [], _, acc => .ok acc
  | (s, a) :: rest, qubits, acc =>
    match projLabel s qubits with
    | none => .error "IndexError: string index out of range"
    | some bits => subsetProbsGo rest qubits (bumpAssoc acc bits (Complex.abs a ^ 2))

/-- subset_probabilities: summed probabilities keyed by the projected
sub-label; num_qubits is evaluated first and can fail. -/
def QuantumSystem.subsetProbabilitiesE (q : QuantumSystem) (qubits : List Nat) :
    Except String (List (String × ℝ)) :=
  match q.numQubitsE with
  | .error e => .error e
  | .ok _ => subsetProbsGo q.amplitudes qubits []

/-- The survivor-collection loop of collapse_on_subset, failing at the
first label with an out-of-range position. -/
def survivorsGo : List (String × ℂ) → List Nat → String →
    Except String (List (String × ℂ))
  | [], _, _ => .ok []
  | (s, a) :: rest, qubits, outcome =>
    match projLabel s qubits with
    | none => .error "IndexError: string index out of range"
    | some bits =>
      match survivorsGo rest qubits outcome with
      | .error e => .error e
      | .ok tail => .ok (if bits = outcome then (s, a) :: tail else tail)

/-- collapse_on_subset: keep only the labels matching the outcome on
the given positions, then construct (hence renormalize) a new system. -/
def QuantumSystem.collapseOnSubsetE (q : QuantumSystem) (qubits : List Nat)
    (outcome : String) : Except String QuantumSystem :=
  match q.numQubitsE with
  | .error e => .error e
  | .ok _ =>
    match survivorsGo q.amplitudes qubits outcome with
    | .error e => .error e
    | .ok [] => .error "No compatible states for outcome in collapse."
    | .ok survivors => mkQuantumSystem survivors

/-- The scanning loop of is_definite. -/
def isDefiniteGo : List (String × ℂ) → Option String → Option String
  | [], acc => acc
  | (s, a) :: rest, acc =>
    if Complex.abs (a - 1) < EPS then
      match acc with
      | some _ => none
      | none => isDefiniteGo rest (some s)
    else if EPS < Complex.abs a then none
    else isDefiniteGo rest acc

/-- is_definite: the unique label with amplitude within EPS of 1, all
other amplitudes being within EPS of 0. -/
def QuantumSystem.isDefinite (q : QuantumSystem) : Option String :=
  isDefiniteGo q.amplitudes none

/-- The scanning loop of is_definite_subset. -/
def isDefiniteSubsetGo : List (String × ℂ) → List Nat → Option String →
    Except String (Option String)
  | [], _, seen => .ok seen
  | (s, a) :: rest, qubits, seen =>
    if EPS < Complex.abs a then
      match projLabel s qubits with
      | none => .error "IndexError: string index out of range"
      | some bits =>
        match seen with
        | none => isDefiniteSubsetGo rest qubits (some bits)
        | some b =>
          if bits = b then isDefiniteSubsetGo rest qubits (some b) else .ok none
    else isDefiniteSubsetGo rest qubits seen

/-- is_definite_subset: the common projected sub-label over all labels
whose amplitude magnitude exceeds EPS, when one exists. -/
def QuantumSystem.isDefiniteSubsetE (q : QuantumSystem) (qubits : List Nat) :
    Except String (Option String) :=
  isDefiniteSubsetGo q.amplitudes qubits none

/-- The fields of a universe, parametric in the child type so that the
recursive child map can be formed (the Universe dataclass fields). -/
structure UniverseData (Child : Type) where
  system : QuantumSystem
  weight : ℝ
  history : List String
  measured_observables : List String
  uid : String
  child_universes : List (String × Child)
  pendingBranches : Option (List (String × ℝ × List Nat))

/-- A universe node of the multiverse tree. -/
inductive Universe where
  | node : UniverseData Universe → Universe

def Universe.data : Universe → UniverseData Universe
  | .node d => d

def Universe.system (u : Universe) : QuantumSystem := u.data.system

def Universe.weight (u : Universe) : ℝ := u.data.weight

def Universe.history (u : Universe) : List String := u.data.history

def Universe.measuredObservables (u : Universe) : List String :=
  u.data.measured_observables

def Universe.uid (u : Universe) : String := u.data.uid

def Universe.childUniverses (u : Universe) : List (String × Universe) :=
  u.data.child_universes

def Universe.pendingBranches (u : Universe) :
    Option (List (String × ℝ × List Nat)) := u.data.pendingBranches

/-- list(self.child_universes.values()). -/
def Universe.childValues (u : Universe) : List Universe :=
  u.data.child_universes.map (fun p => p.2)

def Universe.setChildren (u : Universe) (cs : List (String × Universe)) : Universe :=
  .node { u.data with child_universes := cs }

def Universe.setPending (u : Universe)
    (p : Option (List (String × ℝ × List Nat))) : Universe :=
  .node { u.data with pendingBranches := p }

/-- A registered decoherence model: consumes the freshly created child
and yields the state it leaves behind together with the exception it
raised, if any. -/
def DecoHook : Type := Universe → Universe × Option String

/-- A registered universe-creation observer, receiving the child and
the outcome label. -/
def CreationHook : Type := Universe → String → Universe × Option String

/-- A registered post-measurement hook, receiving the measured node
and the observable name. -/
def MeasHook : Type := Universe → String → Universe × Option String

/-- The decoherence-model call site: every hook runs in order, an
exception is caught and turned into a logged warning. -/
def runDecoLog : List DecoHook → Universe → Universe × List String
  | [], u => (u, [])
  | h :: rest, u =>
    let r := h u
    let after := runDecoLog rest r.1
    (after.1,
      (match r.2 with
        | some e => ["Decoherence model error: " ++ e]
        | none => []) ++ after.2)

/-- The universe-creation-observer call site. -/
def runCreationLog : List CreationHook → Universe → String → Universe × List String
  | [], u, _ => (u, [])
  | h :: rest, u, st =>
    let r := h u st
    let after := runCreationLog rest r.1 st
    (after.1,
      (match r.2 with
        | some e => ["Universe creation observer error: " ++ e]
        | none => []) ++ after.2)

/-- The post-measurement-hook call site. -/
def runMeasLog : List MeasHook → Universe → String → Universe × List String
  | [], u, _ => (u, [])
  | h :: rest, u, obsName =>
    let r := h u obsName
    let after := runMeasLog rest r.1 obsName
    (after.1,
      (match r.2 with
        | some e => ["Post-measurement hook error: " ++ e]
        | none => []) ++ after.2)

/-- _expand_child: create and store the child universe for an outcome,
reusing a cached child.  Returns the updated parent; the freshly stored
child is the new map entry.  Fresh uuid generation is modelled by a
deterministic per-outcome identifier, which no verified property
inspects.  The dead qubits-is-None branch of the source is omitted:
Measurement.apply always stores a concrete index list. -/
def Universe.expandChildE (deco : List DecoHook) (obs : List CreationHook)
    (u : Universe) (st : String) : Except String Universe :=
  match u.pendingBranches with
  | none => .error ("No pending branch for state " ++ st)
  | some pend =>
    match alookup pend st with
    | none => .error ("No pending branch for state " ++ st)
    | some pq =>
      match alookup u.childUniverses st with
      | some _ => .ok u
      | none =>
        match u.system.numQubitsE with
        | .error e => .error e
        | .ok n =>
          match (if pq.2.length = n then
                  mkQuantumSystem (u.system.amplitudes.map
                    (fun p => (p.1, if p.1 = st then (1 : ℂ) else 0)))
                else u.system.collapseOnSubsetE pq.2 st) with
          | .error e => .error e
          | .ok newSys =>
            let child0 : Universe := .node {
              system := newSys
              weight := u.weight * pq.1
              history := u.history
              measured_observables := u.measuredObservables
              uid := u.uid ++ "." ++ st
              child_universes := []
              pendingBranches := none }
            let child1 := (runDecoLog deco child0).1
            let child2 := (runCreationLog obs child1 st).1
            .ok (u.setChildren (u.childUniverses ++ [(st, child2)]))

/-- The expansion loop of children() over the pending table. -/
def Universe.expandAllE (deco : List DecoHook) (obs : List CreationHook) :
    List (String × ℝ × List Nat) → Universe → Except String Universe
  | [], u => .ok u
  | (st, _) :: rest, u =>
    match alookup u.childUniverses st with
    | some _ => Universe.expandAllE deco obs rest u
    | none =>
      match u.expandChildE deco obs st with
      | .error e => .error e
      | .ok u1 => Universe.expandAllE deco obs rest u1

/-- children(): expand every pending outcome not yet materialized, drop
the pending table and return the list of children. -/
def Universe.childrenE (deco : List DecoHook) (obs : List CreationHook)
    (u : Universe) : Except String (Universe × List Universe) :=
  match u.pendingBranches with
  | none => .ok (u, u.childValues)
  | some pend =>
    match Universe.expandAllE deco obs pend u with
    | .error e => .error e
    | .ok u1 =>
      let u2 := u1.setPending none
      .ok (u2, u2.childValues)

/-- Measurement: observable name plus optional qubit subset. -/
structure Measurement where
  observable_name : String
  qubits : Option (List Nat)

/-- The single history line appended by a successful measurement; the
exact Python formatting is abstracted into a plain concatenation. -/
def measureHistoryEntry (obsName : String) (qubits : List Nat)
    (outcomes : List String) : String :=
  "Measurement " ++ obsName ++ " on qubits " ++ toString qubits ++
    " performed, branches deferred: " ++ toString outcomes

/-- Python set.add on the measured-observable set. -/
def addObs (l : List String) (x : String) : List String :=
  if x ∈ l then l else l ++ [x]

/-- The probability table used by a measurement: the full Born table
for a whole-system measurement, the subset table otherwise. -/
def measureProbsE (isFull : Bool) (q : QuantumSystem) (qubits : List Nat) :
    Except String (List (String × ℝ)) :=
  if isFull then .ok q.probabilities else q.subsetProbabilitiesE qubits

/-- The pending table recorded by a measurement: the outcomes whose
probability is at least EPS, paired with probability and subset. -/
def pendingOf (probs : List (String × ℝ)) (qubits : List Nat) :
    List (String × ℝ × List Nat) :=
  (probs.filter (fun p => decide (EPS ≤ p.2))).map (fun p => (p.1, p.2, qubits))

/-- The definiteness guard of Measurement.apply: the whole-system check
for a full measurement, the subset check otherwise. -/
def definiteCheckE (isFull : Bool) (q : QuantumSystem) (qubits : List Nat) :
    Except String (Option String) :=
  if isFull then .ok q.isDefinite else q.isDefiniteSubsetE qubits

/-- Measurement.apply: deferred branching.  Returns the measured node
after mutation together with the always-empty branch list. -/
def Measurement.apply (post : List MeasHook) (m : Measurement) (u : Universe) :
    Except String (Universe × List Universe) :=
  if m.observable_name ∈ u.measuredObservables then .ok (u, [])
  else
    match u.system.numQubitsE with
    | .error e => .error e
    | .ok n =>
      let qubits := m.qubits.getD (List.range n)
      let isFull : Bool := qubits.isEmpty || qubits.length == n
      match definiteCheckE isFull u.system qubits with
      | .error e => .error e
      | .ok (some _) => .ok (u, [])
      | .ok none =>
        let u1 := (u.setPending none).setChildren []
        match measureProbsE isFull u.system qubits with
        | .error e => .error e
        | .ok probs =>
          match pendingOf probs qubits with
          | [] => .ok (u1, [])
          | pb :: pbs =>
            let u2 := Universe.node { u1.data with
              measured_observables := addObs u1.measuredObservables m.observable_name,
              history := u1.history ++ [measureHistoryEntry m.observable_name qubits
                ((pb :: pbs).map (fun p => p.1))],
              pendingBranches := some (pb :: pbs) }
            .ok ((runMeasLog post u2 m.observable_name).1, [])

/-- Universe.measure delegates to Measurement.apply. -/
def Universe.measureE (post : List MeasHook) (u : Universe) (obsName : String)
    (qubits : Option (List Nat)) : Except String (Universe × List Universe) :=
  Measurement.apply post ⟨obsName, qubits⟩ u

/-- Modelled from the spec: the TemporalObserver of spec sections 3 and
4.5.  The Observer class is exported by the package and used by the
CLI, but its source is not part of the repository snapshot.  Trail
entries are previously visited nodes, oldest first. -/
structure Observer where
  id : String
  trail : List Universe
  current : Universe

/-- Modelled from the spec: travel_back validates that steps does not
exceed the trail depth, failing otherwise, and relocates current to the
trail entry steps positions back; overwrite mode truncates the trail,
branch mode retains it. -/
def Observer.travelBack (o : Observer) (steps : Nat) (mode : String) :
    Except String Observer :=
  if o.trail.length < steps then
    .error "travel_back: steps exceeds trail depth"
  else
    .ok { o with
      current := o.trail.getD (o.trail.length - steps) o.current,
      trail := if mode = "overwrite" then o.trail.take (o.trail.length - steps)
               else o.trail }

/-! ### Basic facts about the embedding -/

lemma EPS_pos : 0 < EPS := by norm_num [EPS]

@[simp] lemma data_node (d : UniverseData Universe) : (Universe.node d).data = d := rfl

@[simp] lemma setChildren_system (u : Universe) (cs : List (String × Universe)) :
    (u.setChildren cs).system = u.system := rfl

@[simp] lemma setChildren_weight (u : Universe) (cs : List (String × Universe)) :
    (u.setChildren cs).weight = u.weight := rfl

@[simp] lemma setChildren_history (u : Universe) (cs : List (String × Universe)) :
    (u.setChildren cs).history = u.history := rfl

@[simp] lemma setChildren_measured (u : Universe) (cs : List (String × Universe)) :
    (u.setChildren cs).measuredObservables = u.measuredObservables := rfl

@[simp] lemma setChildren_uid (u : Universe) (cs : List (String × Universe)) :
    (u.setChildren cs).uid = u.uid := rfl

@[simp] lemma setChildren_pending (u : Universe) (cs : List (String × Universe)) :
    (u.setChildren cs).pendingBranches = u.pendingBranches := rfl

@[simp] lemma setChildren_children (u : Universe) (cs : List (String × Universe)) :
    (u.setChildren cs).childUniverses = cs := rfl

@[simp] lemma setPending_system (u : Universe) (p : Option (List (String × ℝ × List Nat))) :
    (u.setPending p).system = u.system := rfl

@[simp] lemma setPending_weight (u : Universe) (p : Option (List (String × ℝ × List Nat))) :
    (u.setPending p).weight = u.weight := rfl

@[simp] lemma setPending_history (u : Universe) (p : Option (List (String × ℝ × List Nat))) :
    (u.setPending p).history = u.history := rfl

@[simp] lemma setPending_measured (u : Universe) (p : Option (List (String × ℝ × List Nat))) :
    (u.setPending p).measuredObservables = u.measuredObservables := rfl

@[simp] lemma setPending_uid (u : Universe) (p : Option (List (String × ℝ × List Nat))) :
    (u.setPending p).uid = u.uid := rfl

@[simp] lemma setPending_pending (u : Universe) (p : Option (List (String × ℝ × List Nat))) :
    (u.setPending p).pendingBranches = p := rfl

@[simp] lemma setPending_children (u : Universe) (p : Option (List (String × ℝ × List Nat))) :
    (u.setPending p).childUniverses = u.childUniverses := rfl

@[simp] lemma setPending_childValues (u : Universe) (p : Option (List (String × ℝ × List Nat))) :
    (u.setPending p).childValues = u.childValues := rfl

@[simp] lemma normSqSum_nil : normSqSum [] = 0 := rfl

@[simp] lemma normSqSum_cons (s : String) (a : ℂ) (l : List (String × ℂ)) :
    normSqSum ((s, a) :: l) = Complex.abs a ^ 2 + normSqSum l := by
  simp [normSqSum]

lemma normSqSum_nonneg (l : List (String × ℂ)) : 0 ≤ normSqSum l := by
  induction l with
  | nil => simp
  | cons p t ih =>
    obtain ⟨s, a⟩ := p
    rw [normSqSum_cons]
    exact add_nonneg (by positivity) ih

lemma normSqSum_map_div (l : List (String × ℂ)) (c : ℂ) :
    normSqSum (l.map (fun p => (p.1, p.2 / c))) = normSqSum l / Complex.abs c ^ 2 := by
  induction l with
  | nil => simp
  | cons p t ih =>
    obtain ⟨s, a⟩ := p
    simp only [List.map_cons, normSqSum_cons, ih]
    rw [map_div₀ Complex.abs, div_pow, add_div]

lemma normSqSum_normalizeAmps (l : List (String × ℂ)) (h : 0 < normSqSum l) :
    normSqSum (normalizeAmps l) = 1 := by
  rw [normalizeAmps, normSqSum_map_div, Complex.abs_ofReal,
    abs_of_nonneg (Real.sqrt_nonneg _), Real.sq_sqrt (le_of_lt h),
    div_self (ne_of_gt h)]

lemma mkQuantumSystem_err (l : List (String × ℂ)) (h : normSqSum l < EPS) :
    mkQuantumSystem l = .error "All amplitudes are zero, cannot normalize." := by
  unfold mkQuantumSystem
  rw [if_pos h]

lemma mkQuantumSystem_ok (l : List (String × ℂ)) (h : ¬ normSqSum l < EPS) :
    mkQuantumSystem l = .ok ⟨normalizeAmps l⟩ := by
  have hpos : 0 < normSqSum l := lt_of_lt_of_le EPS_pos (not_lt.mp h)
  have h1 : normSqSum (normalizeAmps l) = 1 := normSqSum_normalizeAmps l hpos
  unfold mkQuantumSystem
  rw [if_neg h, h1]
  norm_num [EPS]

/-- A normalized amplitude list is left unchanged by normalization. -/
lemma normalizeAmps_of_one (l : List (String × ℂ)) (h : normSqSum l = 1) :
    normalizeAmps l = l := by
  unfold normalizeAmps
  rw [h, Real.sqrt_one]
  simp

/-! ### C7: construction normalizes or rejects the all-zero state -/

/-- C7: constructing a QuantumSystem fails when the sum of squared
amplitude magnitudes is below epsilon (in particular on an all-zero
mapping); otherwise it divides every amplitude by the square root of
that sum, after which the sum of squared magnitudes equals 1 within
1e-9 (here: exactly). -/
theorem C7_construction_normalizes (l : List (String × ℂ)) :
    (normSqSum l < EPS →
      mkQuantumSystem l = .error "All amplitudes are zero, cannot normalize.") ∧
    (¬ normSqSum l < EPS →
      mkQuantumSystem l = .ok ⟨normalizeAmps l⟩ ∧
      |normSqSum (normalizeAmps l) - 1| ≤ 1 / 1000000000) := by
  constructor
  · exact fun h => mkQuantumSystem_err l h
  · intro h
    refine ⟨mkQuantumSystem_ok l h, ?_⟩
    rw [normSqSum_normalizeAmps l (lt_of_lt_of_le EPS_pos (not_lt.mp h))]
    norm_num

theorem C7_construction_normalizes_witness :
    (mkQuantumSystem [("up", (0 : ℂ)), ("down", (0 : ℂ))] =
      .error "All amplitudes are zero, cannot normalize.") ∧
    (mkQuantumSystem [("up", (1 : ℂ))] = .ok ⟨normalizeAmps [("up", (1 : ℂ))]⟩ ∧
      |normSqSum (normalizeAmps [("up", (1 : ℂ))]) - 1| ≤ 1 / 1000000000) := by
  constructor
  · exact (C7_construction_normalizes _).1 (by norm_num [EPS])
  · exact (C7_construction_normalizes _).2 (by norm_num [EPS])

/-! ### C4: re-measuring an already measured observable is a no-op -/

/-- C4: measuring an observable already recorded in
measured_observables returns an empty branch list, raises nothing and
leaves the universe (children, pending table, history, state) exactly
unchanged. -/
theorem C4_remeasure_noop (post : List MeasHook) (m : Measurement) (u : Universe)
    (h : m.observable_name ∈ u.measuredObservables) :
    Measurement.apply post m u = .ok (u, []) := by
  unfold Measurement.apply
  rw [if_pos h]

theorem C4_remeasure_noop_witness :
    Measurement.apply [] ⟨"spin_z", none⟩
      (Universe.node ⟨⟨[("up", (1 : ℂ))]⟩, 1, ["Universe Created"], ["spin_z"], "u0", [], none⟩) =
      .ok (Universe.node ⟨⟨[("up", (1 : ℂ))]⟩, 1, ["Universe Created"], ["spin_z"], "u0", [], none⟩, []) := by
  exact C4_remeasure_noop [] _ _ (by
    simp [Universe.measuredObservables, Universe.data])

/-! ### Structural lemmas about lazy expansion -/

@[simp] lemma alookup_nil {α : Type} (k : String) :
    alookup ([] : List (String × α)) k = none := rfl

@[simp] lemma alookup_cons {α : Type} (k0 : String) (v0 : α)
    (rest : List (String × α)) (k : String) :
    alookup ((k0, v0) :: rest) k = if k0 = k then some v0 else alookup rest k := rfl

lemma alookup_append_of_none {α : Type} (xs ys : List (String × α)) (k : String)
    (h : alookup xs k = none) : alookup (xs ++ ys) k = alookup ys k := by
  induction xs with
  | nil => simp
  | cons p t ih =>
    obtain ⟨k0, v0⟩ := p
    rw [alookup_cons] at h
    by_cases hk : k0 = k
    · rw [if_pos hk] at h
      exact absurd h (by simp)
    · rw [if_neg hk] at h
      simpa [hk] using ih h

lemma alookup_append_of_some {α : Type} (xs ys : List (String × α)) (k : String)
    (v : α) (h : alookup xs k = some v) : alookup (xs ++ ys) k = some v := by
  induction xs with
  | nil => simp at h
  | cons p t ih =>
    obtain ⟨k0, v0⟩ := p
    rw [alookup_cons] at h
    by_cases hk : k0 = k
    · rw [if_pos hk] at h
      simpa [hk] using h
    · rw [if_neg hk] at h
      simpa [hk] using ih h

lemma alookup_of_nodup_mem {α : Type} (l : List (String × α))
    (hnd : (l.map (fun e => e.1)).Nodup) :
    ∀ e ∈ l, alookup l e.1 = some e.2 := by
  induction l with
  | nil => intro e he; simp at he
  | cons p t ih =>
    intro e he
    obtain ⟨k0, v0⟩ := p
    rw [List.map_cons, List.nodup_cons] at hnd
    rcases List.mem_cons.mp he with rfl | hmem
    · simp
    · have hne : k0 ≠ e.1 := by
        intro hcontra
        exact hnd.1 (hcontra ▸ List.mem_map_of_mem (fun x => x.1) hmem)
      rw [alookup_cons, if_neg hne]
      exact ih hnd.2 e hmem

/-- The fields of a universe that lazy expansion never touches. -/
def SameCore (u v : Universe) : Prop :=
  v.system = u.system ∧ v.weight = u.weight ∧ v.history = u.history ∧
  v.measuredObservables = u.measuredObservables ∧ v.uid = u.uid ∧
  v.pendingBranches = u.pendingBranches

lemma sameCore_refl (u : Universe) : SameCore u u :=
  ⟨rfl, rfl, rfl, rfl, rfl, rfl⟩

lemma sameCore_trans {u v w : Universe} (h1 : SameCore u v) (h2 : SameCore v w) :
    SameCore u w :=
  ⟨h2.1.trans h1.1, h2.2.1.trans h1.2.1, h2.2.2.1.trans h1.2.2.1,
    h2.2.2.2.1.trans h1.2.2.2.1, h2.2.2.2.2.1.trans h1.2.2.2.2.1,
    h2.2.2.2.2.2.trans h1.2.2.2.2.2⟩

/-- A successful _expand_child either reuses the cached child or appends
exactly one new entry to the child map. -/
lemma expandChildE_shape (deco : List DecoHook) (obs : List CreationHook)
    (u u1 : Universe) (st : String)
    (h : u.expandChildE deco obs st = .ok u1) :
    u1 = u ∨ ∃ c : Universe, u1 = u.setChildren (u.childUniverses ++ [(st, c)]) := by
  unfold Universe.expandChildE at h
  split at h
  · exact absurd h (by simp)
  · split at h
    · exact absurd h (by simp)
    · split at h
      · cases h
        exact Or.inl rfl
      · split at h
        · exact absurd h (by simp)
        · split at h
          · exact absurd h (by simp)
          · cases h
            exact Or.inr ⟨_, rfl⟩

lemma expandChildE_core (deco : List DecoHook) (obs : List CreationHook)
    (u u1 : Universe) (st : String)
    (h : u.expandChildE deco obs st = .ok u1) : SameCore u u1 := by
  rcases expandChildE_shape deco obs u u1 st h with rfl | ⟨c, rfl⟩
  · exact sameCore_refl _
  · exact ⟨by simp, by simp, by simp, by simp, by simp, by simp⟩

lemma expandAllE_core (deco : List DecoHook) (obs : List CreationHook)
    (l : List (String × ℝ × List Nat)) (u u1 : Universe)
    (h : Universe.expandAllE deco obs l u = .ok u1) : SameCore u u1 := by
  induction l generalizing u with
  | nil =>
    unfold Universe.expandAllE at h
    cases h
    exact sameCore_refl _
  | cons e t ih =>
    obtain ⟨st, pr⟩ := e
    unfold Universe.expandAllE at h
    split at h
    · exact ih _ h
    · split at h
      · exact absurd h (by simp)
      · next u' heq =>
        exact sameCore_trans (expandChildE_core deco obs u u' st heq) (ih u' h)

/-- A successful children() call leaves no pending table and returns
exactly the materialized child list of the resulting node. -/
lemma childrenE_ok_shape (deco : List DecoHook) (obs : List CreationHook)
    (u u2 : Universe) (cs : List Universe)
    (h : u.childrenE deco obs = .ok (u2, cs)) :
    u2.pendingBranches = none ∧ cs = u2.childValues := by
  unfold Universe.childrenE at h
  split at h
  · next hnone =>
    cases h
    exact ⟨hnone, rfl⟩
  · split at h
    · exact absurd h (by simp)
    · cases h
      simp

/-! ### C3: children() is idempotent and reuses cached children -/

/-- C3: a second children() call after expansion returns the same
already-materialized children and changes nothing, and _expand_child on
an outcome already present in child_universes returns the parent
unchanged (the cached child is reused, no new universe is created). -/
theorem C3_children_idempotent :
    (∀ (deco : List DecoHook) (obs : List CreationHook) (u u2 : Universe)
        (cs : List Universe), u.childrenE deco obs = .ok (u2, cs) →
        u2.childrenE deco obs = .ok (u2, cs)) ∧
    (∀ (deco : List DecoHook) (obs : List CreationHook) (u : Universe)
        (st : String) (pend : List (String × ℝ × List Nat)),
        u.pendingBranches = some pend → (alookup pend st).isSome →
        (alookup u.childUniverses st).isSome →
        u.expandChildE deco obs st = .ok u) := by
  constructor
  · intro deco obs u u2 cs h
    obtain ⟨hnone, hcs⟩ := childrenE_ok_shape deco obs u u2 cs h
    unfold Universe.childrenE
    rw [hnone, hcs]
  · intro deco obs u st pend hp hl hc
    unfold Universe.expandChildE
    obtain ⟨pq, hpq⟩ := Option.isSome_iff_exists.mp hl
    obtain ⟨c, hcc⟩ := Option.isSome_iff_exists.mp hc
    simp only [hp, hpq, hcc]

def w3child : Universe :=
  Universe.node ⟨⟨[("0", (1 : ℂ))]⟩, 1 / 2, ["Universe Created"], [], "w3.0", [], none⟩

def w3 : Universe :=
  Universe.node ⟨⟨[("0", (1 : ℂ))]⟩, 1, ["Universe Created"], [], "w3",
    [("0", w3child)], some [("0", 1 / 2, [0])]⟩

theorem C3_children_idempotent_witness :
    (w3.setPending none).childrenE [] [] = .ok (w3.setPending none, [w3child]) ∧
    w3.expandChildE [] [] "0" = .ok w3 := by
  have h1 : w3.childrenE [] [] = .ok (w3.setPending none, [w3child]) := rfl
  refine ⟨C3_children_idempotent.1 [] [] w3 _ _ h1, ?_⟩
  exact C3_children_idempotent.2 [] [] w3 "0" [("0", 1 / 2, [0])] rfl rfl rfl

/-! ### C10: children() modifies only the child map and pending table -/

/-- C10: a successful children() call leaves the node's own system,
weight, history, measured observables and identifier unchanged, and
resets the pending table to none; only the child map and the pending
table are modified (hooks act on the created children only). -/
theorem C10_children_frame (deco : List DecoHook) (obs : List CreationHook)
    (u u2 : Universe) (cs : List Universe)
    (h : u.childrenE deco obs = .ok (u2, cs)) :
    u2.system = u.system ∧ u2.weight = u.weight ∧ u2.history = u.history ∧
    u2.measuredObservables = u.measuredObservables ∧ u2.uid = u.uid ∧
    u2.pendingBranches = none := by
  have hnone := (childrenE_ok_shape deco obs u u2 cs h).1
  unfold Universe.childrenE at h
  split at h
  · cases h
    exact ⟨rfl, rfl, rfl, rfl, rfl, hnone⟩
  · split at h
    · exact absurd h (by simp)
    · next u1 heq =>
      obtain ⟨a1, a2, a3, a4, a5, _⟩ := expandAllE_core deco obs _ u u1 heq
      cases h
      exact ⟨by simpa using a1, by simpa using a2, by simpa using a3,
        by simpa using a4, by simpa using a5, by simp⟩

def w10 : Universe :=
  Universe.node ⟨⟨[("0", (1 : ℂ))]⟩, 1, ["Universe Created"], [], "w10", [], none⟩

theorem C10_children_frame_witness :
    w10.childrenE [] [] = .ok (w10, []) ∧
    (w10.system = w10.system ∧ w10.weight = w10.weight ∧
      w10.history = w10.history ∧
      w10.measuredObservables = w10.measuredObservables ∧
      w10.uid = w10.uid ∧ w10.pendingBranches = none) := by
  have hrun : w10.childrenE [] [] = .ok (w10, []) := rfl
  exact ⟨hrun, C10_children_frame [] [] w10 w10 [] hrun⟩

/-! ### Evaluation helpers -/

@[simp] lemma system_node (d : UniverseData Universe) :
    (Universe.node d).system = d.system := rfl

@[simp] lemma weight_node (d : UniverseData Universe) :
    (Universe.node d).weight = d.weight := rfl

@[simp] lemma history_node (d : UniverseData Universe) :
    (Universe.node d).history = d.history := rfl

@[simp] lemma measured_node (d : UniverseData Universe) :
    (Universe.node d).measuredObservables = d.measured_observables := rfl

@[simp] lemma uid_node (d : UniverseData Universe) :
    (Universe.node d).uid = d.uid := rfl

@[simp] lemma children_node (d : UniverseData Universe) :
    (Universe.node d).childUniverses = d.child_universes := rfl

@[simp] lemma pending_node (d : UniverseData Universe) :
    (Universe.node d).pendingBranches = d.pendingBranches := rfl

@[simp] lemma childValues_eq (u : Universe) :
    u.childValues = u.childUniverses.map (fun p => p.2) := rfl

@[simp] lemma setChildren_childValues (u : Universe) (cs : List (String × Universe)) :
    (u.setChildren cs).childValues = cs.map (fun p => p.2) := rfl

@[simp] lemma runDecoLog_nil (u : Universe) : runDecoLog [] u = (u, []) := rfl

@[simp] lemma runCreationLog_nil (u : Universe) (st : String) :
    runCreationLog [] u st = (u, []) := rfl

@[simp] lemma runMeasLog_nil (u : Universe) (o : String) :
    runMeasLog [] u o = (u, []) := rfl

lemma abs_sq_ofReal (r : ℝ) : Complex.abs ((r : ℂ)) ^ 2 = r ^ 2 := by
  rw [Complex.sq_abs, Complex.normSq_ofReal, sq]

lemma abs_ofReal_nonneg (r : ℝ) (h : 0 ≤ r) : Complex.abs ((r : ℂ)) = r := by
  rw [Complex.abs_ofReal, abs_of_nonneg h]

lemma abs_ofReal_sub_one (r : ℝ) : Complex.abs ((r : ℂ) - 1) = |r - 1| := by
  rw [← Complex.ofReal_one, ← Complex.ofReal_sub, Complex.abs_ofReal]

lemma mk_single (s : String) :
    mkQuantumSystem [(s, (1 : ℂ))] = .ok ⟨[(s, (1 : ℂ))]⟩ := by
  have h1 : normSqSum [(s, (1 : ℂ))] = 1 := by simp
  rw [mkQuantumSystem_ok _ (by rw [h1]; norm_num [EPS]), normalizeAmps_of_one _ h1]

/-! ### C1: weight conservation on full expansion -/

/-- The sum of the weights of a list of universes. -/
def sumWeights (cs : List Universe) : ℝ := (cs.map Universe.weight).sum

/-- The total probability carried by a pending branch table. -/
def sumProbs (P : List (String × ℝ × List Nat)) : ℝ :=
  (P.map (fun e => e.2.1)).sum

@[simp] lemma sumWeights_nil : sumWeights [] = 0 := rfl

@[simp] lemma sumWeights_cons (c : Universe) (t : List Universe) :
    sumWeights (c :: t) = c.weight + sumWeights t := by
  simp [sumWeights]

@[simp] lemma sumWeights_append (xs ys : List Universe) :
    sumWeights (xs ++ ys) = sumWeights xs + sumWeights ys := by
  simp [sumWeights]

@[simp] lemma sumProbs_nil : sumProbs [] = 0 := rfl

@[simp] lemma sumProbs_cons (e : String × ℝ × List Nat) (t : List (String × ℝ × List Nat)) :
    sumProbs (e :: t) = e.2.1 + sumProbs t := by
  simp [sumProbs]

/-- An uncached _expand_child with no registered hooks appends exactly
one child whose weight is the parent weight times the outcome
probability. -/
lemma expandChildE_ok_weight (u u1 : Universe) (st : String)
    (pend : List (String × ℝ × List Nat)) (pq : ℝ × List Nat)
    (hp : u.pendingBranches = some pend) (hl : alookup pend st = some pq)
    (hc : alookup u.childUniverses st = none)
    (h : u.expandChildE [] [] st = .ok u1) :
    ∃ c : Universe, c.weight = u.weight * pq.1 ∧
      u1 = u.setChildren (u.childUniverses ++ [(st, c)]) := by
  unfold Universe.expandChildE at h
  simp only [hp, hl, hc] at h
  split at h
  · exact absurd h (by simp)
  · split at h
    · exact absurd h (by simp)
    · cases h
      refine ⟨_, ?_, rfl⟩
      rfl

/-- The expansion loop with no hooks adds, over a duplicate-free pending
list of fresh outcomes, total child weight equal to the parent weight
times the total pending probability. -/
lemma expandAllE_weights (l : List (String × ℝ × List Nat)) :
    ∀ (u u1 : Universe) (pend : List (String × ℝ × List Nat)),
      u.pendingBranches = some pend →
      (∀ e ∈ l, alookup pend e.1 = some e.2) →
      (l.map (fun e => e.1)).Nodup →
      (∀ e ∈ l, alookup u.childUniverses e.1 = none) →
      Universe.expandAllE [] [] l u = .ok u1 →
      sumWeights u1.childValues = sumWeights u.childValues + u.weight * sumProbs l := by
  induction l with
  | nil =>
    intro u u1 pend hp hall hnd hnone h
    unfold Universe.expandAllE at h
    cases h
    simp
  | cons e t ih =>
    intro u u1 pend hp hall hnd hnone h
    obtain ⟨st, pq⟩ := e
    have hcn : alookup u.childUniverses st = none := hnone (st, pq) (by simp)
    unfold Universe.expandAllE at h
    simp only [hcn] at h
    split at h
    · exact absurd h (by simp)
    · next u' heq =>
      have hlook : alookup pend st = some pq := hall (st, pq) (by simp)
      obtain ⟨c, hcw, hu'⟩ := expandChildE_ok_weight u u' st pend pq hp hlook hcn heq
      subst hu'
      rw [List.map_cons, List.nodup_cons] at hnd
      have hp' : (u.setChildren (u.childUniverses ++ [(st, c)])).pendingBranches =
          some pend := by simp [hp]
      have hall' : ∀ e ∈ t, alookup pend e.1 = some e.2 :=
        fun e he => hall e (by simp [he])
      have hnone' : ∀ e ∈ t,
          alookup (u.setChildren (u.childUniverses ++ [(st, c)])).childUniverses e.1 = none := by
        intro e he
        rw [setChildren_children,
          alookup_append_of_none _ _ _ (hnone e (by simp [he])), alookup_cons,
          if_neg, alookup_nil]
        intro hcontra
        exact hnd.1 (hcontra ▸ List.mem_map_of_mem (fun x => x.1) he)
      have hsum := ih _ u1 pend hp' hall' hnd.2 hnone' h
      rw [hsum]
      simp only [setChildren_childValues, setChildren_weight, List.map_append,
        List.map_cons, List.map_nil]
      rw [show ((u.childUniverses.map (fun p => p.2)) ++ [c] : List Universe) =
        u.childUniverses.map (fun p => p.2) ++ [c] from rfl]
      rw [sumWeights_append]
      simp only [sumWeights_cons, sumWeights_nil, sumProbs_cons, childValues_eq]
      rw [hcw]
      ring

/-- C1 (amended): for a node whose duplicate-free pending table is fully
expanded by children() into a previously empty child map, with no hooks
registered, the sum of the children's weights equals the node's weight
times the total pending probability; the deviation from the node's own
weight is exactly the node's absolute weight times the total dropped
probability.  It is within 1e-9 exactly when that product is, which can
fail when several outcomes below epsilon were dropped at measurement
time. -/
theorem C1_weight_conservation_amended (u u2 : Universe)
    (P : List (String × ℝ × List Nat)) (cs : List Universe)
    (hp : u.pendingBranches = some P)
    (hnd : (P.map (fun e => e.1)).Nodup)
    (hc : u.childUniverses = [])
    (h : u.childrenE [] [] = .ok (u2, cs)) :
    sumWeights cs = u.weight * sumProbs P ∧
    |sumWeights cs - u.weight| = |u.weight| * |1 - sumProbs P| := by
  unfold Universe.childrenE at h
  simp only [hp] at h
  split at h
  · exact absurd h (by simp)
  · next u1 heq =>
    cases h
    have hnone : ∀ e ∈ P, alookup u.childUniverses e.1 = none := by
      intro e he
      rw [hc]
      rfl
    have hsum := expandAllE_weights P u u1 P hp (alookup_of_nodup_mem P hnd) hnd hnone heq
    have hzero : sumWeights u.childValues = 0 := by
      rw [childValues_eq, hc]
      rfl
    rw [hzero, zero_add] at hsum
    have hmain : sumWeights (u1.setPending none).childValues = u.weight * sumProbs P := by
      rw [setPending_childValues]
      exact hsum
    refine ⟨hmain, ?_⟩
    rw [hmain, show u.weight * sumProbs P - u.weight = u.weight * (sumProbs P - 1) by ring,
      abs_mul, abs_sub_comm]

def w1 : Universe :=
  Universe.node ⟨⟨[("0", (1 : ℂ))]⟩, 1, ["Universe Created"], [], "w1", [],
    some [("0", 1, [0])]⟩

theorem C1_weight_conservation_amended_witness :
    ∃ u2 : Universe, ∃ cs : List Universe,
      w1.childrenE [] [] = .ok (u2, cs) ∧
      sumWeights cs = w1.weight * sumProbs [("0", 1, [0])] ∧
      |sumWeights cs - w1.weight| = |w1.weight| * |1 - sumProbs [("0", 1, [0])]| := by
  have hmk : mkQuantumSystem [("0", (1 : ℂ))] = .ok ⟨[("0", (1 : ℂ))]⟩ := mk_single "0"
  have hec : w1.expandChildE [] [] "0" =
      .ok (w1.setChildren [("0",
        Universe.node ⟨⟨[("0", (1 : ℂ))]⟩, w1.weight * 1, w1.history,
          w1.measuredObservables, "w1" ++ "." ++ "0", [], none⟩)]) := by
    unfold Universe.expandChildE
    have hlen : "0".length = 1 := rfl
    simp only [w1, pending_node, children_node, system_node, history_node,
      measured_node, uid_node, weight_node, alookup_cons, alookup_nil]
    norm_num [QuantumSystem.numQubitsE, hlen, hmk, runDecoLog, runCreationLog,
      Universe.setChildren]
  have hp1 : w1.pendingBranches = some [("0", 1, [0])] := rfl
  have hc1 : alookup w1.childUniverses "0" = none := rfl
  have hrun : w1.childrenE [] [] = .ok ((w1.setChildren [("0",
      Universe.node ⟨⟨[("0", (1 : ℂ))]⟩, w1.weight * 1, w1.history,
        w1.measuredObservables, "w1" ++ "." ++ "0", [], none⟩)]).setPending none,
      [Universe.node ⟨⟨[("0", (1 : ℂ))]⟩, w1.weight * 1, w1.history,
        w1.measuredObservables, "w1" ++ "." ++ "0", [], none⟩]) := by
    unfold Universe.childrenE
    simp only [hp1]
    unfold Universe.expandAllE
    simp only [hc1, hec]
    unfold Universe.expandAllE
    simp only [setPending_childValues, setChildren_childValues, List.map_cons,
      List.map_nil]
  exact ⟨_, _, hrun,
    C1_weight_conservation_amended w1 _ [("0", 1, [0])] _ rfl (by simp) rfl hrun⟩

/-! ### C1 counterexample: several dropped sub-epsilon outcomes -/

lemma isDefiniteGo_cons_near_one (s : String) (a : ℂ) (rest : List (String × ℂ))
    (h : Complex.abs (a - 1) < EPS) :
    isDefiniteGo ((s, a) :: rest) none = isDefiniteGo rest (some s) := by
  simp only [isDefiniteGo]
  rw [if_pos h]

lemma isDefiniteGo_cons_large (s : String) (a : ℂ) (rest : List (String × ℂ))
    (acc : Option String) (h1 : ¬ Complex.abs (a - 1) < EPS)
    (h2 : EPS < Complex.abs a) : isDefiniteGo ((s, a) :: rest) acc = none := by
  simp only [isDefiniteGo]
  rw [if_neg h1, if_pos h2]

@[simp] lemma pendingOf_nil (qs : List Nat) : pendingOf [] qs = [] := rfl

lemma pendingOf_cons_keep (s : String) (p : ℝ) (rest : List (String × ℝ))
    (qs : List Nat) (h : EPS ≤ p) :
    pendingOf ((s, p) :: rest) qs = (s, p, qs) :: pendingOf rest qs := by
  simp [pendingOf, List.filter_cons, h]

lemma pendingOf_cons_drop (s : String) (p : ℝ) (rest : List (String × ℝ))
    (qs : List Nat) (h : ¬ EPS ≤ p) :
    pendingOf ((s, p) :: rest) qs = pendingOf rest qs := by
  simp [pendingOf, List.filter_cons, h]

/-- 1 - 1.8e-9: the squared magnitude of the dominant amplitude. -/
def c1Val : ℝ := 1 - 18 / 10000000000

/-- The dominant raw amplitude of the counterexample state. -/
def c1Amp : ℝ := Real.sqrt c1Val

/-- 3e-5: each minor raw amplitude, of probability 9e-10 < EPS. -/
def c1Small : ℝ := 3 / 100000

/-- A normalized three-label state with two outcomes just below EPS. -/
def c1Raw : List (String × ℂ) :=
  [("00", (c1Amp : ℂ)), ("01", (c1Small : ℂ)), ("10", (c1Small : ℂ))]

lemma c1Val_nonneg : (0 : ℝ) ≤ c1Val := by norm_num [c1Val]

lemma c1Amp_sq : c1Amp ^ 2 = c1Val := Real.sq_sqrt c1Val_nonneg

lemma c1_normSq : normSqSum c1Raw = 1 := by
  simp only [c1Raw, normSqSum_cons, normSqSum_nil, abs_sq_ofReal, c1Amp_sq]
  norm_num [c1Val, c1Small]

lemma c1_mk : mkQuantumSystem c1Raw = .ok ⟨c1Raw⟩ := by
  rw [mkQuantumSystem_ok _ (by rw [c1_normSq]; norm_num [EPS]),
    normalizeAmps_of_one _ c1_normSq]

lemma c1Amp_le_one : c1Amp ≤ 1 := by
  rw [show (1 : ℝ) = Real.sqrt 1 by rw [Real.sqrt_one]]
  exact Real.sqrt_le_sqrt (by norm_num [c1Val])

lemma c1Amp_close : Complex.abs ((c1Amp : ℂ) - 1) < EPS := by
  rw [abs_ofReal_sub_one, abs_of_nonpos (by linarith [c1Amp_le_one])]
  have h1 : 1 - EPS < c1Amp := by
    have h0 : (0 : ℝ) ≤ 1 - EPS := by norm_num [EPS]
    show 1 - EPS < Real.sqrt c1Val
    exact (Real.lt_sqrt h0).mpr (by norm_num [EPS, c1Val])
  linarith

lemma c1Small_not_near_one : ¬ Complex.abs ((c1Small : ℂ) - 1) < EPS := by
  rw [abs_ofReal_sub_one, abs_of_nonpos (by norm_num [c1Small])]
  norm_num [c1Small, EPS]

lemma c1Small_large : EPS < Complex.abs ((c1Small : ℂ)) := by
  rw [abs_ofReal_nonneg _ (by norm_num [c1Small])]
  norm_num [c1Small, EPS]

lemma c1_isDefinite : (⟨c1Raw⟩ : QuantumSystem).isDefinite = none := by
  unfold QuantumSystem.isDefinite
  show isDefiniteGo c1Raw none = none
  rw [c1Raw, isDefiniteGo_cons_near_one _ _ _ c1Amp_close,
    isDefiniteGo_cons_large _ _ _ _ c1Small_not_near_one c1Small_large]

lemma c1_probs : (⟨c1Raw⟩ : QuantumSystem).probabilities =
    [("00", c1Val), ("01", 9 / 10000000000), ("10", 9 / 10000000000)] := by
  simp only [QuantumSystem.probabilities, c1Raw, List.map_cons, List.map_nil,
    abs_sq_ofReal, c1Amp_sq]
  norm_num [c1Small]

lemma c1_pendingOf :
    pendingOf [("00", c1Val), ("01", 9 / 10000000000), ("10", 9 / 10000000000)]
      [0, 1] = [("00", c1Val, [0, 1])] := by
  rw [pendingOf_cons_keep _ _ _ _ (by norm_num [EPS, c1Val]),
    pendingOf_cons_drop _ _ _ _ (by norm_num [EPS]),
    pendingOf_cons_drop _ _ _ _ (by norm_num [EPS]), pendingOf_nil]

/-- The root universe of the counterexample, as the engine creates it. -/
def c1Root : Universe :=
  Universe.node ⟨⟨c1Raw⟩, 1, ["Universe Created"], [], "root", [], none⟩

/-- The root after measuring every qubit: a single pending outcome of
probability 1 - 1.8e-9, the two others having been dropped. -/
def c1Measured : Universe :=
  Universe.node ⟨⟨c1Raw⟩, 1,
    ["Universe Created", measureHistoryEntry "spin" [0, 1] ["00"]], ["spin"],
    "root", [], some [("00", c1Val, [0, 1])]⟩

lemma c1_apply : Measurement.apply [] ⟨"spin", none⟩ c1Root = .ok (c1Measured, []) := by
  have hnq : c1Root.system.numQubitsE = .ok 2 := rfl
  have hsys : c1Root.system = ⟨c1Raw⟩ := rfl
  have hmem : ("spin" ∈ c1Root.measuredObservables) = False := by
    simp [c1Root]
  unfold Measurement.apply
  simp only [hmem, if_false, hnq, Option.getD_none]
  norm_num [List.range_succ, definiteCheckE, hsys, c1_isDefinite, measureProbsE,
    c1_probs, c1_pendingOf, addObs, c1Root, c1Measured, Universe.setPending,
    Universe.setChildren, runMeasLog]

/-- The collapsed child state after the surviving full-measurement
outcome. -/
def c1Collapsed : List (String × ℂ) := [("00", (1 : ℂ)), ("01", 0), ("10", 0)]

lemma c1_mkCollapsed : mkQuantumSystem c1Collapsed = .ok ⟨c1Collapsed⟩ := by
  have h1 : normSqSum c1Collapsed = 1 := by simp [c1Collapsed]
  rw [mkQuantumSystem_ok _ (by rw [h1]; norm_num [EPS]), normalizeAmps_of_one _ h1]

/-- The single materialized child of the counterexample. -/
def c1Child : Universe :=
  Universe.node ⟨⟨c1Collapsed⟩, 1 * c1Val,
    ["Universe Created", measureHistoryEntry "spin" [0, 1] ["00"]], ["spin"],
    "root" ++ "." ++ "00", [], none⟩

lemma c1_expand : c1Measured.expandChildE [] [] "00" =
    .ok (c1Measured.setChildren [("00", c1Child)]) := by
  unfold Universe.expandChildE
  have hlen2 : "00".length = 2 := rfl
  have hlen01 : "01".length = 2 := rfl
  have hlen10 : "10".length = 2 := rfl
  have hne1 : (("01" : String) = "00") = False := eq_false (by decide)
  have hne2 : (("10" : String) = "00") = False := eq_false (by decide)
  have hmkc : mkQuantumSystem [("00", (1 : ℂ)), ("01", (0 : ℂ)), ("10", (0 : ℂ))] =
      .ok ⟨[("00", (1 : ℂ)), ("01", (0 : ℂ)), ("10", (0 : ℂ))]⟩ := c1_mkCollapsed
  simp only [c1Measured, pending_node, children_node, system_node, history_node,
    measured_node, uid_node, weight_node, alookup_cons, alookup_nil]
  norm_num [QuantumSystem.numQubitsE, hlen2, hlen01, hlen10, hne1, hne2, c1Raw,
    hmkc, c1Collapsed, runDecoLog, runCreationLog,
    Universe.setChildren, c1Child, c1Small, c1Amp]

lemma c1_children : c1Measured.childrenE [] [] =
    .ok ((c1Measured.setChildren [("00", c1Child)]).setPending none, [c1Child]) := by
  have hp1 : c1Measured.pendingBranches = some [("00", c1Val, [0, 1])] := rfl
  have hc1 : alookup c1Measured.childUniverses "00" = none := rfl
  unfold Universe.childrenE
  simp only [hp1]
  unfold Universe.expandAllE
  simp only [hc1, c1_expand]
  unfold Universe.expandAllE
  simp only [setPending_childValues, setChildren_childValues, List.map_cons,
    List.map_nil]

/-- C1 (counterexample): a reachable universe of weight 1 whose pending
table is fully expanded by children() and whose only child has weight
the node weight times the outcome probability, yet the children's total
weight differs from the node's weight by 1.8e-9 > 1e-9, because two
outcomes of probability 9e-10 each were dropped at measurement time. -/
theorem C1_weight_conservation_counterexample :
    mkQuantumSystem c1Raw = .ok ⟨c1Raw⟩ ∧
    Measurement.apply [] ⟨"spin", none⟩ c1Root = .ok (c1Measured, []) ∧
    (c1Measured.childrenE [] []).map (fun r => sumWeights r.2) = .ok (1 * c1Val) ∧
    ¬ |1 * c1Val - c1Measured.weight| ≤ 1 / 1000000000 := by
  refine ⟨c1_mk, c1_apply, ?_, ?_⟩
  · rw [c1_children]
    show Except.ok (sumWeights [c1Child]) = _
    rw [show sumWeights [c1Child] = c1Child.weight by simp]
    rfl
  · rw [not_le]
    have hw : c1Measured.weight = 1 := rfl
    rw [hw]
    have h1 : 1 * c1Val - (1 : ℝ) = -(9 / 5000000000) := by norm_num [c1Val]
    rw [h1, abs_neg, abs_of_pos (by norm_num)]
    norm_num

/-! ### C5: entangled partial measurement of a Bell state -/

lemma isDefiniteSubsetGo_cons_none (s : String) (a : ℂ) (rest : List (String × ℂ))
    (qubits : List Nat) (bits : String) (h : EPS < Complex.abs a)
    (hp : projLabel s qubits = some bits) :
    isDefiniteSubsetGo ((s, a) :: rest) qubits none =
      isDefiniteSubsetGo rest qubits (some bits) := by
  simp only [isDefiniteSubsetGo, hp]
  rw [if_pos h]

lemma isDefiniteSubsetGo_cons_other (s : String) (a : ℂ) (rest : List (String × ℂ))
    (qubits : List Nat) (b : String) (bits : String) (h : EPS < Complex.abs a)
    (hp : projLabel s qubits = some bits) (hne : bits ≠ b) :
    isDefiniteSubsetGo ((s, a) :: rest) qubits (some b) = .ok none := by
  simp only [isDefiniteSubsetGo, hp]
  rw [if_pos h, if_neg hne]

lemma subsetProbsGo_cons (s : String) (a : ℂ) (rest : List (String × ℂ))
    (qubits : List Nat) (acc : List (String × ℝ)) (bits : String)
    (hp : projLabel s qubits = some bits) :
    subsetProbsGo ((s, a) :: rest) qubits acc =
      subsetProbsGo rest qubits (bumpAssoc acc bits (Complex.abs a ^ 2)) := by
  simp only [subsetProbsGo, hp]

lemma survivorsGo_cons_keep (s : String) (a : ℂ) (rest : List (String × ℂ))
    (qubits : List Nat) (outcome : String)
    (hp : projLabel s qubits = some outcome) :
    survivorsGo ((s, a) :: rest) qubits outcome =
      (match survivorsGo rest qubits outcome with
       | .error e => .error e
       | .ok tail => .ok ((s, a) :: tail)) := by
  simp only [survivorsGo, hp, eq_self_iff_true, if_true]

lemma survivorsGo_cons_skip (s : String) (a : ℂ) (rest : List (String × ℂ))
    (qubits : List Nat) (outcome : String) (bits : String)
    (hp : projLabel s qubits = some bits) (hne : bits ≠ outcome) :
    survivorsGo ((s, a) :: rest) qubits outcome = survivorsGo rest qubits outcome := by
  simp only [survivorsGo, hp, if_neg hne]
  rcases survivorsGo rest qubits outcome with e | tail <;> rfl

/-- 1/sqrt 2: each amplitude of the Bell state. -/
def bellAmp : ℝ := 1 / Real.sqrt 2

/-- The Bell state over the composite labels 00 and 11. -/
def bellRaw : List (String × ℂ) := [("00", (bellAmp : ℂ)), ("11", (bellAmp : ℂ))]

lemma bellAmp_sq : bellAmp ^ 2 = 1 / 2 := by
  show (1 / Real.sqrt 2) ^ 2 = 1 / 2
  rw [div_pow, one_pow, Real.sq_sqrt (by norm_num : (0 : ℝ) ≤ 2)]

lemma bell_abs_sq : Complex.abs ((bellAmp : ℂ)) ^ 2 = 1 / 2 := by
  rw [abs_sq_ofReal, bellAmp_sq]

lemma bellAmp_pos : 0 < bellAmp :=
  div_pos one_pos (Real.sqrt_pos.mpr (by norm_num))

lemma bellAmp_large : EPS < Complex.abs ((bellAmp : ℂ)) := by
  rw [abs_ofReal_nonneg _ (le_of_lt bellAmp_pos)]
  have h2 : Real.sqrt 2 ≤ 2 := by
    have hle : Real.sqrt 2 ≤ Real.sqrt 4 := Real.sqrt_le_sqrt (by norm_num)
    have h4 : Real.sqrt 4 = 2 := by
      rw [show (4 : ℝ) = 2 ^ 2 by norm_num, Real.sqrt_sq (by norm_num : (0:ℝ) ≤ 2)]
    rwa [h4] at hle
  have hhalf : (1 : ℝ) / 2 ≤ 1 / Real.sqrt 2 :=
    one_div_le_one_div_of_le (Real.sqrt_pos.mpr (by norm_num)) h2
  show EPS < 1 / Real.sqrt 2
  calc EPS < 1 / 2 := by norm_num [EPS]
    _ ≤ 1 / Real.sqrt 2 := hhalf

lemma bell_normSq : normSqSum bellRaw = 1 := by
  simp only [bellRaw, normSqSum_cons, normSqSum_nil, bell_abs_sq]
  norm_num

lemma bell_mk : mkQuantumSystem bellRaw = .ok ⟨bellRaw⟩ := by
  rw [mkQuantumSystem_ok _ (by rw [bell_normSq]; norm_num [EPS]),
    normalizeAmps_of_one _ bell_normSq]

lemma bell_div : bellAmp / Real.sqrt (1 / 2) = 1 := by
  have hs : Real.sqrt ((1 : ℝ) / 2) = 1 / Real.sqrt 2 := by
    rw [one_div, Real.sqrt_inv, one_div]
  rw [hs]
  exact div_self (ne_of_gt bellAmp_pos)

lemma bell_collapse_mk (s : String) :
    mkQuantumSystem [(s, (bellAmp : ℂ))] = .ok ⟨[(s, (1 : ℂ))]⟩ := by
  have hS : normSqSum [(s, (bellAmp : ℂ))] = 1 / 2 := by
    rw [normSqSum_cons, normSqSum_nil, bell_abs_sq]
    norm_num
  have hlist : normalizeAmps [(s, (bellAmp : ℂ))] = [(s, (1 : ℂ))] := by
    unfold normalizeAmps
    rw [hS]
    simp only [List.map_cons, List.map_nil]
    rw [← Complex.ofReal_div, bell_div, Complex.ofReal_one]
  rw [mkQuantumSystem_ok _ (by rw [hS]; norm_num [EPS]), hlist]

lemma bell_isDefSub : (⟨bellRaw⟩ : QuantumSystem).isDefiniteSubsetE [0] = .ok none := by
  unfold QuantumSystem.isDefiniteSubsetE
  show isDefiniteSubsetGo bellRaw [0] none = .ok none
  rw [show bellRaw = ("00", (bellAmp : ℂ)) :: [("11", (bellAmp : ℂ))] from rfl,
    isDefiniteSubsetGo_cons_none _ _ _ _ _ bellAmp_large
      (show projLabel "00" [0] = some "0" from rfl),
    isDefiniteSubsetGo_cons_other _ _ _ _ _ _ bellAmp_large
      (show projLabel "11" [0] = some "1" from rfl) (by decide)]

lemma bell_subsetProbs : (⟨bellRaw⟩ : QuantumSystem).subsetProbabilitiesE [0] =
    .ok [("0", 1 / 2), ("1", 1 / 2)] := by
  unfold QuantumSystem.subsetProbabilitiesE
  have hnq : (⟨bellRaw⟩ : QuantumSystem).numQubitsE = .ok 2 := rfl
  simp only [hnq]
  show subsetProbsGo bellRaw [0] [] = _
  rw [show bellRaw = ("00", (bellAmp : ℂ)) :: [("11", (bellAmp : ℂ))] from rfl,
    subsetProbsGo_cons _ _ _ _ _ _ (show projLabel "00" [0] = some "0" from rfl),
    subsetProbsGo_cons _ _ _ _ _ _ (show projLabel "11" [0] = some "1" from rfl)]
  show Except.ok (bumpAssoc (bumpAssoc [] "0" (Complex.abs ((bellAmp : ℂ)) ^ 2)) "1"
    (Complex.abs ((bellAmp : ℂ)) ^ 2)) = _
  rw [bell_abs_sq]
  rfl

lemma bell_collapse0 : (⟨bellRaw⟩ : QuantumSystem).collapseOnSubsetE [0] "0" =
    .ok ⟨[("00", (1 : ℂ))]⟩ := by
  unfold QuantumSystem.collapseOnSubsetE
  have hnq : (⟨bellRaw⟩ : QuantumSystem).numQubitsE = .ok 2 := rfl
  have hamp : (⟨bellRaw⟩ : QuantumSystem).amplitudes = bellRaw := rfl
  have hsurv : survivorsGo bellRaw [0] "0" = .ok [("00", (bellAmp : ℂ))] := by
    rw [show bellRaw = ("00", (bellAmp : ℂ)) :: [("11", (bellAmp : ℂ))] from rfl,
      survivorsGo_cons_keep _ _ _ _ _ (show projLabel "00" [0] = some "0" from rfl),
      survivorsGo_cons_skip _ _ _ _ _ _ (show projLabel "11" [0] = some "1" from rfl)
        (by decide)]
    rfl
  simp only [hnq, hamp, hsurv, bell_collapse_mk]

lemma bell_collapse1 : (⟨bellRaw⟩ : QuantumSystem).collapseOnSubsetE [0] "1" =
    .ok ⟨[("11", (1 : ℂ))]⟩ := by
  unfold QuantumSystem.collapseOnSubsetE
  have hnq : (⟨bellRaw⟩ : QuantumSystem).numQubitsE = .ok 2 := rfl
  have hamp : (⟨bellRaw⟩ : QuantumSystem).amplitudes = bellRaw := rfl
  have hsurv : survivorsGo bellRaw [0] "1" = .ok [("11", (bellAmp : ℂ))] := by
    rw [show bellRaw = ("00", (bellAmp : ℂ)) :: [("11", (bellAmp : ℂ))] from rfl,
      survivorsGo_cons_skip _ _ _ _ _ _ (show projLabel "00" [0] = some "0" from rfl)
        (by decide),
      survivorsGo_cons_keep _ _ _ _ _ (show projLabel "11" [0] = some "1" from rfl)]
    rfl
  simp only [hnq, hamp, hsurv, bell_collapse_mk]

/-- The Bell root universe as the CLI demo builds it. -/
def bellRoot : Universe :=
  Universe.node ⟨⟨bellRaw⟩, 1, ["Universe Created"], [], "root", [], none⟩

def bellHistory : List String :=
  ["Universe Created", measureHistoryEntry "qubits" [0] ["0", "1"]]

def bellPend : List (String × ℝ × List Nat) := [("0", 1 / 2, [0]), ("1", 1 / 2, [0])]

/-- The Bell root after measuring qubit 0 only. -/
def bellMeasured : Universe :=
  Universe.node ⟨⟨bellRaw⟩, 1, bellHistory, ["qubits"], "root", [], some bellPend⟩

def bellChild0 : Universe :=
  Universe.node ⟨⟨[("00", (1 : ℂ))]⟩, 1 * (1 / 2), bellHistory, ["qubits"],
    "root" ++ "." ++ "0", [], none⟩

def bellChild1 : Universe :=
  Universe.node ⟨⟨[("11", (1 : ℂ))]⟩, 1 * (1 / 2), bellHistory, ["qubits"],
    "root" ++ "." ++ "1", [], none⟩

def bellExpanded : Universe :=
  (bellMeasured.setChildren [("0", bellChild0), ("1", bellChild1)]).setPending none

lemma bell_apply : Measurement.apply [] ⟨"qubits", some [0]⟩ bellRoot =
    .ok (bellMeasured, []) := by
  have hnq : bellRoot.system.numQubitsE = .ok 2 := rfl
  have hsys : bellRoot.system = ⟨bellRaw⟩ := rfl
  have hmem : ("qubits" ∈ bellRoot.measuredObservables) = False := by
    simp [bellRoot]
  have hpend : pendingOf [("0", (1 : ℝ) / 2), ("1", (1 : ℝ) / 2)] [0] = bellPend := by
    rw [pendingOf_cons_keep _ _ _ _ (by norm_num [EPS]),
      pendingOf_cons_keep _ _ _ _ (by norm_num [EPS]), pendingOf_nil]
    rfl
  unfold Measurement.apply
  simp only [hmem, if_false, hnq, Option.getD_some]
  norm_num [definiteCheckE, hsys, bell_isDefSub, measureProbsE, bell_subsetProbs,
    hpend, addObs, bellRoot, bellMeasured, bellPend, bellHistory,
    Universe.setPending, Universe.setChildren, runMeasLog]

lemma bell_expand0 : bellMeasured.expandChildE [] [] "0" =
    .ok (bellMeasured.setChildren [("0", bellChild0)]) := by
  unfold Universe.expandChildE
  have hnqB : (⟨bellRaw⟩ : QuantumSystem).numQubitsE = .ok 2 := rfl
  simp only [bellMeasured, bellPend, pending_node, children_node, system_node,
    history_node, measured_node, uid_node, weight_node, alookup_cons, alookup_nil]
  norm_num [hnqB, bell_collapse0, runDecoLog, runCreationLog,
    Universe.setChildren, bellChild0, bellHistory]

lemma bell_expand1 : (bellMeasured.setChildren [("0", bellChild0)]).expandChildE [] [] "1" =
    .ok (bellMeasured.setChildren [("0", bellChild0), ("1", bellChild1)]) := by
  unfold Universe.expandChildE
  have hnqB : (⟨bellRaw⟩ : QuantumSystem).numQubitsE = .ok 2 := rfl
  have hne01 : (("0" : String) = "1") = False := eq_false (by decide)
  simp only [setChildren_pending, setChildren_children, setChildren_system,
    setChildren_history, setChildren_measured, setChildren_uid, setChildren_weight,
    bellMeasured, bellPend, pending_node, children_node, system_node,
    history_node, measured_node, uid_node, weight_node, alookup_cons, alookup_nil,
    hne01, if_false]
  norm_num [hnqB, bell_collapse1, runDecoLog, runCreationLog,
    Universe.setChildren, bellChild1, bellHistory]

lemma bell_children : bellMeasured.childrenE [] [] =
    .ok (bellExpanded, [bellChild0, bellChild1]) := by
  have hp1 : bellMeasured.pendingBranches = some bellPend := rfl
  have hc0 : alookup bellMeasured.childUniverses "0" = none := rfl
  have hc1 : alookup (bellMeasured.setChildren [("0", bellChild0)]).childUniverses "1" =
      none := rfl
  unfold Universe.childrenE
  simp only [hp1, bellPend]
  unfold Universe.expandAllE
  simp only [hc0, bell_expand0]
  unfold Universe.expandAllE
  simp only [hc1, bell_expand1]
  unfold Universe.expandAllE
  simp only [bellExpanded, setPending_childValues, setChildren_childValues,
    List.map_cons, List.map_nil]

/-- C5: measuring qubit 0 of the Bell state (labels 00 and 11, each of
amplitude 1/sqrt 2, node weight 1) defers two branches, and children()
yields exactly 2 children, one per outcome, each holding a single
surviving definite label of magnitude 1 (within epsilon) and weight 0.5
(within epsilon). -/
theorem C5_bell_partial_measurement :
    mkQuantumSystem bellRaw = .ok ⟨bellRaw⟩ ∧
    Measurement.apply [] ⟨"qubits", some [0]⟩ bellRoot = .ok (bellMeasured, []) ∧
    bellMeasured.childrenE [] [] = .ok (bellExpanded, [bellChild0, bellChild1]) ∧
    (∃ a0 : ℂ, bellChild0.system.amplitudes = [("00", a0)] ∧
      |Complex.abs a0 - 1| ≤ EPS) ∧
    (∃ a1 : ℂ, bellChild1.system.amplitudes = [("11", a1)] ∧
      |Complex.abs a1 - 1| ≤ EPS) ∧
    |bellChild0.weight - 1 / 2| ≤ EPS ∧ |bellChild1.weight - 1 / 2| ≤ EPS := by
  refine ⟨bell_mk, bell_apply, bell_children, ⟨1, rfl, ?_⟩, ⟨1, rfl, ?_⟩, ?_, ?_⟩
  · simp [le_of_lt EPS_pos]
  · simp [le_of_lt EPS_pos]
  · show |1 * (1 / 2) - (1 : ℝ) / 2| ≤ EPS
    simp [le_of_lt EPS_pos]
  · show |1 * (1 / 2) - (1 : ℝ) / 2| ≤ EPS
    simp [le_of_lt EPS_pos]

/-! ### C6: collapse_on_subset -/

/-- The labels of a system that agree with the outcome on the measured
positions: precisely the survivors kept by collapse_on_subset. -/
def matchingLabels (q : QuantumSystem) (qubits : List Nat) (outcome : String) :
    List (String × ℂ) :=
  q.amplitudes.filter (fun p => decide (projLabel p.1 qubits = some outcome))

lemma projLabel_isSome (s : String) (qubits : List Nat)
    (h : ∀ i ∈ qubits, i < s.length) : ∃ bits, projLabel s qubits = some bits := by
  induction qubits with
  | nil => exact ⟨"", rfl⟩
  | cons i rest ih =>
    obtain ⟨bits, hb⟩ := ih (fun j hj => h j (by simp [hj]))
    have hi : i < s.data.length := h i (by simp)
    have hget : s.data[i]? = some s.data[i] := List.getElem?_eq_getElem hi
    unfold projLabel at hb ⊢
    rcases hm : projChars s rest with _ | cs
    · rw [hm] at hb
      exact absurd hb (by simp)
    · exact ⟨String.mk (s.data[i] :: cs), by simp [projChars, hget, hm]⟩

lemma survivorsGo_ok (l : List (String × ℂ)) (qubits : List Nat) (outcome : String)
    (h : ∀ p ∈ l, ∃ bits, projLabel p.1 qubits = some bits) :
    survivorsGo l qubits outcome =
      .ok (l.filter (fun p => decide (projLabel p.1 qubits = some outcome))) := by
  induction l with
  | nil => rfl
  | cons p t ih =>
    obtain ⟨s, a⟩ := p
    obtain ⟨bits, hb⟩ := h (s, a) (by simp)
    have hrec := ih (fun e he => h e (by simp [he]))
    by_cases hbo : bits = outcome
    · subst hbo
      rw [survivorsGo_cons_keep _ _ _ _ _ hb, hrec]
      simp [List.filter_cons, hb]
    · rw [survivorsGo_cons_skip _ _ _ _ _ _ hb hbo, hrec]
      have hcond : (projLabel s qubits = some outcome) = False := by
        simp [hb, hbo]
      simp [List.filter_cons, hcond]

lemma numQubitsE_lengths (q : QuantumSystem) (n : Nat) (h : q.numQubitsE = .ok n) :
    ∀ p ∈ q.amplitudes, p.1.length = n := by
  unfold QuantumSystem.numQubitsE at h
  split at h
  · next hnil =>
    intro p hp
    rw [hnil] at hp
    exact absurd hp (by simp)
  · next s a rest hcons =>
    split at h
    · next hall =>
      cases h
      intro p hp
      rw [hcons] at hp
      rcases List.mem_cons.mp hp with rfl | hmem
      · rfl
      · have := List.all_eq_true.mp hall p hmem
        simpa using this
    · exact absurd h (by simp)

/-- C6 (amended): for a system whose labels share one length n and a
subset of in-range positions, collapse_on_subset returns exactly the
labels agreeing with the outcome on those positions, renormalized; and
it fails exactly when no label matches or the matching labels carry
total squared magnitude below epsilon (a sub-epsilon outcome). -/
theorem C6_collapse_amended (q : QuantumSystem) (qubits : List Nat)
    (outcome : String) (n : Nat) (hn : q.numQubitsE = .ok n)
    (hidx : ∀ i ∈ qubits, i < n) :
    (matchingLabels q qubits outcome ≠ [] →
      ¬ normSqSum (matchingLabels q qubits outcome) < EPS →
      q.collapseOnSubsetE qubits outcome =
        .ok ⟨normalizeAmps (matchingLabels q qubits outcome)⟩) ∧
    ((∃ e, q.collapseOnSubsetE qubits outcome = .error e) ↔
      (matchingLabels q qubits outcome = [] ∨
        normSqSum (matchingLabels q qubits outcome) < EPS)) := by
  have hsome : ∀ p ∈ q.amplitudes, ∃ bits, projLabel p.1 qubits = some bits := by
    intro p hp
    apply projLabel_isSome
    intro i hi
    rw [numQubitsE_lengths q n hn p hp]
    exact hidx i hi
  have hsurv : survivorsGo q.amplitudes qubits outcome =
      .ok (matchingLabels q qubits outcome) :=
    survivorsGo_ok q.amplitudes qubits outcome hsome
  have hempty : matchingLabels q qubits outcome = [] →
      q.collapseOnSubsetE qubits outcome =
        .error "No compatible states for outcome in collapse." := by
    intro he
    unfold QuantumSystem.collapseOnSubsetE
    rw [he] at hsurv
    simp only [hn, hsurv]
  have hcons : ∀ hd tl, matchingLabels q qubits outcome = hd :: tl →
      q.collapseOnSubsetE qubits outcome = mkQuantumSystem (hd :: tl) := by
    intro hd tl he
    unfold QuantumSystem.collapseOnSubsetE
    rw [he] at hsurv
    simp only [hn, hsurv]
  constructor
  · intro hne hsq
    rcases hml : matchingLabels q qubits outcome with _ | ⟨hd, tl⟩
    · exact absurd hml hne
    · rw [hml] at hsq
      rw [hcons hd tl hml, ← hml, mkQuantumSystem_ok _ (hml ▸ hsq)]
  · constructor
    · rintro ⟨e, he⟩
      by_contra hcontra
      push_neg at hcontra
      obtain ⟨hne, hsq⟩ := hcontra
      rcases hml : matchingLabels q qubits outcome with _ | ⟨hd, tl⟩
      · exact hne hml
      · rw [hml] at hsq
        rw [hcons hd tl hml, mkQuantumSystem_ok _ (not_lt.mpr hsq)] at he
        exact absurd he (by simp)
    · intro hor
      rcases hml : matchingLabels q qubits outcome with _ | ⟨hd, tl⟩
      · exact ⟨_, hempty hml⟩
      · rcases hor with hml2 | hsq
        · rw [hml2] at hml
          exact absurd hml (by simp)
        · rw [hml] at hsq
          exact ⟨_, by rw [hcons hd tl hml]; exact mkQuantumSystem_err _ hsq⟩

theorem C6_collapse_amended_witness :
    (⟨bellRaw⟩ : QuantumSystem).collapseOnSubsetE [0] "0" =
      .ok ⟨normalizeAmps (matchingLabels ⟨bellRaw⟩ [0] "0")⟩ := by
  have hml : matchingLabels ⟨bellRaw⟩ [0] "0" = [("00", (bellAmp : ℂ))] := rfl
  apply (C6_collapse_amended ⟨bellRaw⟩ [0] "0" 2 rfl (by
    intro i hi
    rcases List.mem_singleton.mp hi with rfl
    norm_num)).1
  · rw [hml]
    simp
  · rw [hml, normSqSum_cons, normSqSum_nil, bell_abs_sq]
    norm_num [EPS]

/-- A two-label state with labels of different lengths; both labels
agree with outcome 0 on position 0. -/
def c6Raw : List (String × ℂ) := [("0", (1 : ℂ)), ("00", (1 : ℂ))]

/-- The normalized ragged-label system the constructor accepts. -/
def c6Sys : QuantumSystem := ⟨normalizeAmps c6Raw⟩

lemma c6_normSq : normSqSum c6Raw = 2 := by
  simp only [c6Raw, normSqSum_cons, normSqSum_nil, map_one, one_pow]
  norm_num

/-- C6 (counterexample): the constructor accepts a state whose labels
have different lengths; on it, collapse_on_subset raises the
num_qubits label-length error even though every label agrees with the
requested outcome on the requested position, so collapse can fail
although labels match. -/
theorem C6_collapse_counterexample :
    mkQuantumSystem c6Raw = .ok c6Sys ∧
    projLabel "0" [0] = some "0" ∧ projLabel "00" [0] = some "0" ∧
    c6Sys.amplitudes.map (fun p => p.1) = ["0", "00"] ∧
    c6Sys.collapseOnSubsetE [0] "0" =
      .error "All state keys must have the same length (number of qubits)." := by
  refine ⟨?_, rfl, rfl, rfl, rfl⟩
  rw [mkQuantumSystem_ok _ (by rw [c6_normSq]; norm_num [EPS])]
  rfl

/-! ### C2: measure defers branching -/

/-- C2 (amended): for a universe whose system is not definite (on the
whole system for a full measurement, on the requested subset otherwise)
and a fresh observable, provided at least one outcome has probability
at least epsilon, measure returns an empty sequence, clears any
existing pending table and materialized children, stores the pending
table holding exactly the outcomes of probability at least epsilon,
records the observable, and appends exactly one history entry. -/
theorem C2_measure_defers_amended (m : Measurement) (u : Universe) (n : Nat)
    (qubits : List Nat) (probs : List (String × ℝ))
    (hfresh : m.observable_name ∉ u.measuredObservables)
    (hn : u.system.numQubitsE = .ok n)
    (hq : m.qubits.getD (List.range n) = qubits)
    (hdef : definiteCheckE (qubits.isEmpty || qubits.length == n) u.system qubits =
      .ok none)
    (hprobs : measureProbsE (qubits.isEmpty || qubits.length == n) u.system qubits =
      .ok probs)
    (hne : pendingOf probs qubits ≠ []) :
    ∃ u2 : Universe, Measurement.apply [] m u = .ok (u2, []) ∧
      u2.childUniverses = [] ∧
      u2.pendingBranches = some (pendingOf probs qubits) ∧
      (∀ e ∈ pendingOf probs qubits, EPS ≤ e.2.1) ∧
      pendingOf probs qubits =
        (probs.filter (fun p => decide (EPS ≤ p.2))).map (fun p => (p.1, p.2, qubits)) ∧
      u2.measuredObservables = addObs u.measuredObservables m.observable_name ∧
      u2.history = u.history ++ [measureHistoryEntry m.observable_name qubits
        ((pendingOf probs qubits).map (fun p => p.1))] ∧
      u2.system = u.system ∧ u2.weight = u.weight ∧ u2.uid = u.uid := by
  have hkeep : ∀ e ∈ pendingOf probs qubits, EPS ≤ e.2.1 := by
    intro e he
    unfold pendingOf at he
    obtain ⟨p, hp, rfl⟩ := List.mem_map.mp he
    have := List.of_mem_filter hp
    simpa using this
  rcases hpd : pendingOf probs qubits with _ | ⟨pb, pbs⟩
  · exact absurd hpd hne
  · unfold Measurement.apply
    rw [if_neg hfresh]
    simp only [hn, hq, hdef, hprobs, hpd, runMeasLog_nil]
    refine ⟨_, rfl, rfl, rfl, hpd ▸ hkeep, hpd.symm, rfl, by simp, rfl, rfl, rfl⟩

lemma bell_pendingOf : pendingOf [("0", (1 : ℝ) / 2), ("1", (1 : ℝ) / 2)] [0] =
    bellPend := by
  rw [pendingOf_cons_keep _ _ _ _ (by norm_num [EPS]),
    pendingOf_cons_keep _ _ _ _ (by norm_num [EPS]), pendingOf_nil]
  rfl

theorem C2_measure_defers_amended_witness :
    (Measurement.apply [] ⟨"qubits", some [0]⟩ bellRoot).map
        (fun r => (r.1.pendingBranches, r.1.measuredObservables, r.2)) =
      .ok (some bellPend, ["qubits"], []) := by
  obtain ⟨u2, happly, hchild, hpend2, hkeep, hfilter, hmeas, hhist, hsys, hwt, hid⟩ :=
    C2_measure_defers_amended ⟨"qubits", some [0]⟩ bellRoot 2 [0]
      [("0", 1 / 2), ("1", 1 / 2)] (by simp [bellRoot, Universe.measuredObservables,
        Universe.data]) rfl rfl bell_isDefSub bell_subsetProbs
      (by rw [bell_pendingOf]; simp [bellPend])
  rw [happly]
  simp only [Except.map]
  rw [hpend2, hmeas, bell_pendingOf]
  rfl

/-! ### C2 counterexample: a state whose outcomes are all below epsilon -/

/-- All bitstrings of a given length. -/
def allBitstrings : Nat → List String
  | 0 => [""]
  | n + 1 =>
    ((allBitstrings n).map (fun s => "0" ++ s)) ++
      ((allBitstrings n).map (fun s => "1" ++ s))

lemma allBitstrings_length (n : Nat) : (allBitstrings n).length = 2 ^ n := by
  induction n with
  | zero => rfl
  | succ k ih =>
    simp only [allBitstrings, List.length_append, List.length_map, ih]
    ring

lemma allBitstrings_mem_length (n : Nat) : ∀ s ∈ allBitstrings n, s.length = n := by
  induction n with
  | zero =>
    intro s hs
    simp only [allBitstrings, List.mem_singleton] at hs
    subst hs
    rfl
  | succ k ih =>
    intro s hs
    simp only [allBitstrings, List.mem_append, List.mem_map] at hs
    rcases hs with ⟨t, ht, rfl⟩ | ⟨t, ht, rfl⟩
    · rw [String.length_append, ih t ht, show "0".length = 1 from rfl]
      omega
    · rw [String.length_append, ih t ht, show "1".length = 1 from rfl]
      omega

lemma allBitstrings_ne_nil (n : Nat) : allBitstrings n ≠ [] := by
  induction n with
  | zero => simp [allBitstrings]
  | succ k ih =>
    intro h
    unfold allBitstrings at h
    rw [List.append_eq_nil] at h
    exact ih (List.map_eq_nil.mp h.1)

lemma numQubitsE_of_uniform (l : List (String × ℂ)) (n : Nat) (hne : l ≠ [])
    (hlen : ∀ p ∈ l, p.1.length = n) : (⟨l⟩ : QuantumSystem).numQubitsE = .ok n := by
  unfold QuantumSystem.numQubitsE
  rcases l with _ | ⟨⟨s, a⟩, rest⟩
  · exact absurd rfl hne
  · have hs : s.length = n := hlen (s, a) (by simp)
    have hall : rest.all (fun p => p.1.length == s.length) = true := by
      rw [List.all_eq_true]
      intro p hp
      have h1 : p.1.length = n := hlen p (by simp [hp])
      simp [h1, hs]
    show (if (rest.all fun p => p.1.length == s.length) = true then
        Except.ok s.length
      else Except.error "All state keys must have the same length (number of qubits).") =
      Except.ok n
    rw [hall]
    simp [hs]

lemma pendingOf_eq_nil (probs : List (String × ℝ)) (qs : List Nat)
    (h : ∀ x ∈ probs, ¬ EPS ≤ x.2) : pendingOf probs qs = [] := by
  unfold pendingOf
  rw [List.filter_eq_nil.mpr (by
    intro a ha
    simpa using h a ha)]
  rfl

/-- 2^31 labels, each of raw amplitude 1: after normalization every
outcome has probability 2^-31 < EPS. -/
def c2Raw : List (String × ℂ) := (allBitstrings 31).map (fun s => (s, (1 : ℂ)))

lemma normSqSum_const_one (ls : List String) :
    normSqSum (ls.map (fun s => (s, (1 : ℂ)))) = ls.length := by
  induction ls with
  | nil => simp
  | cons s t ih =>
    simp only [List.map_cons, normSqSum_cons, map_one, one_pow, ih, List.length_cons]
    push_cast
    ring

lemma c2_normSq : normSqSum c2Raw = 2147483648 := by
  unfold c2Raw
  rw [normSqSum_const_one, allBitstrings_length]
  norm_num

/-- The normalized 31-qubit uniform system. -/
def c2Sys : QuantumSystem := ⟨normalizeAmps c2Raw⟩

lemma c2_mk : mkQuantumSystem c2Raw = .ok c2Sys := by
  rw [mkQuantumSystem_ok _ (by rw [c2_normSq]; norm_num [EPS])]
  rfl

/-- The normalized amplitude 2^(-31/2) of every label. -/
def c2Amp : ℂ := (1 : ℂ) / ((Real.sqrt 2147483648 : ℝ) : ℂ)

lemma c2Sys_amps : c2Sys.amplitudes = (allBitstrings 31).map (fun s => (s, c2Amp)) := by
  show normalizeAmps c2Raw = _
  unfold normalizeAmps
  rw [c2_normSq]
  unfold c2Raw
  rw [List.map_map]
  rfl

lemma c2Sys_eq : c2Sys = ⟨(allBitstrings 31).map (fun s => (s, c2Amp))⟩ :=
  congrArg QuantumSystem.mk c2Sys_amps

lemma c2_numQubits : c2Sys.numQubitsE = .ok 31 := by
  rw [c2Sys_eq]
  apply numQubitsE_of_uniform
  · intro h
    exact allBitstrings_ne_nil 31 (List.map_eq_nil.mp h)
  · intro p hp
    obtain ⟨s, hs, rfl⟩ := List.mem_map.mp hp
    exact allBitstrings_mem_length 31 s hs

lemma c2Amp_abs : Complex.abs c2Amp = 1 / Real.sqrt 2147483648 := by
  unfold c2Amp
  rw [map_div₀ Complex.abs, map_one, Complex.abs_ofReal,
    abs_of_nonneg (Real.sqrt_nonneg _)]

lemma sqrt_c2_ge_two : 2 ≤ Real.sqrt 2147483648 :=
  (Real.le_sqrt (by norm_num) (by norm_num)).mpr (by norm_num)

lemma sqrt_c2_lt : Real.sqrt 2147483648 < 1000000000 := by
  rw [Real.sqrt_lt' (by norm_num)]
  norm_num

lemma c2Amp_not_near_one : ¬ Complex.abs (c2Amp - 1) < EPS := by
  have hc : c2Amp = (((1 / Real.sqrt 2147483648 : ℝ)) : ℂ) := by
    unfold c2Amp
    rw [Complex.ofReal_div, Complex.ofReal_one]
  have h1 : 1 / Real.sqrt 2147483648 ≤ 1 / 2 :=
    one_div_le_one_div_of_le (by norm_num) sqrt_c2_ge_two
  rw [hc, abs_ofReal_sub_one, abs_of_nonpos (by linarith)]
  rw [neg_sub]
  intro hcontra
  have hE : EPS = 1 / 1000000000 := rfl
  rw [hE] at hcontra
  linarith

lemma c2Amp_large : EPS < Complex.abs c2Amp := by
  rw [c2Amp_abs]
  have hpos : 0 < Real.sqrt 2147483648 := Real.sqrt_pos.mpr (by norm_num)
  calc EPS = 1 / 1000000000 := rfl
    _ < 1 / Real.sqrt 2147483648 := one_div_lt_one_div_of_lt hpos sqrt_c2_lt

lemma c2_isDefinite : c2Sys.isDefinite = none := by
  rw [c2Sys_eq]
  show isDefiniteGo ((allBitstrings 31).map (fun s => (s, c2Amp))) none = none
  obtain ⟨s, t, hst⟩ := List.exists_cons_of_ne_nil (allBitstrings_ne_nil 31)
  rw [hst, List.map_cons]
  exact isDefiniteGo_cons_large _ _ _ _ c2Amp_not_near_one c2Amp_large

lemma c2_pendingOf : pendingOf c2Sys.probabilities (List.range 31) = [] := by
  apply pendingOf_eq_nil
  intro x hx
  unfold QuantumSystem.probabilities at hx
  rw [c2Sys_eq] at hx
  rw [show (⟨(allBitstrings 31).map (fun s => (s, c2Amp))⟩ :
      QuantumSystem).amplitudes = (allBitstrings 31).map (fun s => (s, c2Amp))
    from rfl, List.map_map] at hx
  obtain ⟨s, hs, rfl⟩ := List.mem_map.mp hx
  show ¬ EPS ≤ Complex.abs c2Amp ^ 2
  rw [c2Amp_abs, div_pow, one_pow,
    Real.sq_sqrt (by norm_num : (0 : ℝ) ≤ 2147483648)]
  norm_num [EPS]

/-- The 31-qubit root with the uniform superposition. -/
def c2Root : Universe :=
  Universe.node ⟨c2Sys, 1, ["Universe Created"], [], "root", [], none⟩

/-- C2 (counterexample): a publicly constructible universe whose system
is not definite and whose observable is fresh, on which measure neither
stores a pending table nor records the observable nor appends any
history entry, because every outcome has probability 2^-31 < EPS and
the pending table comes out empty. -/
theorem C2_measure_defers_counterexample :
    mkQuantumSystem c2Raw = .ok c2Sys ∧
    c2Root.system.isDefinite = none ∧
    ("m" ∈ c2Root.measuredObservables) = False ∧
    (Measurement.apply [] ⟨"m", none⟩ c2Root).map
        (fun r => (r.1.pendingBranches, r.1.measuredObservables, r.1.history, r.2)) =
      .ok (none, [], ["Universe Created"], []) := by
  have hmem : ("m" ∈ c2Root.measuredObservables) = False := by
    simp [c2Root, Universe.measuredObservables, Universe.data]
  refine ⟨c2_mk, c2_isDefinite, hmem, ?_⟩
  have hnq : c2Root.system.numQubitsE = .ok 31 := c2_numQubits
  have hfull : ((List.range 31).isEmpty || (List.range 31).length == 31) = true := by
    simp [List.length_range]
  have hdef : definiteCheckE true c2Root.system (List.range 31) = .ok none := by
    unfold definiteCheckE
    rw [if_pos rfl, show c2Root.system.isDefinite = none from c2_isDefinite]
  have hprobs : measureProbsE true c2Root.system (List.range 31) =
      .ok c2Sys.probabilities := by
    unfold measureProbsE
    rw [if_pos rfl]
    rfl
  unfold Measurement.apply
  simp only [hmem, if_false, hnq, Option.getD_none, hfull, hdef, hprobs,
    c2_pendingOf]
  rfl

/-! ### C8: hook exceptions are caught, logged and non-fatal -/

/-- The same decoherence model with its exception suppressed: it still
performs the state mutation it had performed before raising. -/
def stripDeco (hk : DecoHook) : DecoHook := fun u => ((hk u).1, none)

/-- The same creation observer with its exception suppressed. -/
def stripCreation (hk : CreationHook) : CreationHook := fun u st => ((hk u st).1, none)

/-- The same post-measurement hook with its exception suppressed. -/
def stripMeas (hk : MeasHook) : MeasHook := fun u o => ((hk u o).1, none)

lemma runDecoLog_strip (deco : List DecoHook) (u : Universe) :
    (runDecoLog (deco.map stripDeco) u).1 = (runDecoLog deco u).1 := by
  induction deco generalizing u with
  | nil => rfl
  | cons hk t ih => simp [runDecoLog, stripDeco, ih]

lemma runCreationLog_strip (obs : List CreationHook) (u : Universe) (st : String) :
    (runCreationLog (obs.map stripCreation) u st).1 = (runCreationLog obs u st).1 := by
  induction obs generalizing u with
  | nil => rfl
  | cons hk t ih => simp [runCreationLog, stripCreation, ih]

lemma runMeasLog_strip (post : List MeasHook) (u : Universe) (o : String) :
    (runMeasLog (post.map stripMeas) u o).1 = (runMeasLog post u o).1 := by
  induction post generalizing u with
  | nil => rfl
  | cons hk t ih => simp [runMeasLog, stripMeas, ih]

lemma expandChildE_strip (deco : List DecoHook) (obs : List CreationHook)
    (u : Universe) (st : String) :
    u.expandChildE (deco.map stripDeco) (obs.map stripCreation) st =
      u.expandChildE deco obs st := by
  unfold Universe.expandChildE
  simp only [runDecoLog_strip, runCreationLog_strip]

lemma expandAllE_strip (deco : List DecoHook) (obs : List CreationHook)
    (l : List (String × ℝ × List Nat)) (u : Universe) :
    Universe.expandAllE (deco.map stripDeco) (obs.map stripCreation) l u =
      Universe.expandAllE deco obs l u := by
  induction l generalizing u with
  | nil => rfl
  | cons e t ih =>
    obtain ⟨st, pq⟩ := e
    unfold Universe.expandAllE
    rw [expandChildE_strip]
    cases hc : alookup u.childUniverses st with
    | some c =>
      simp only [hc]
      exact ih u
    | none =>
      simp only [hc]
      cases hec : u.expandChildE deco obs st with
      | error e => rfl
      | ok u1 =>
        simp only []
        exact ih u1

lemma childrenE_strip (deco : List DecoHook) (obs : List CreationHook) (u : Universe) :
    u.childrenE (deco.map stripDeco) (obs.map stripCreation) = u.childrenE deco obs := by
  unfold Universe.childrenE
  cases hp : u.pendingBranches with
  | none => rfl
  | some pend => simp only [hp, expandAllE_strip]

lemma apply_strip (post : List MeasHook) (m : Measurement) (u : Universe) :
    Measurement.apply (post.map stripMeas) m u = Measurement.apply post m u := by
  unfold Measurement.apply
  simp only [runMeasLog_strip]

/-- C8: hook exceptions are strictly non-fatal.  children() and
measure() return exactly what they return when every registered hook
has its exception suppressed (so a raising hook never aborts the
operation or skips a pending outcome), every hook in each registry is
applied in registration order regardless of raised exceptions, and a
raising hook contributes one logged warning while the remaining hooks
still run. -/
theorem C8_hook_errors_nonfatal :
    (∀ (deco : List DecoHook) (obs : List CreationHook) (u : Universe),
      u.childrenE deco obs =
        u.childrenE (deco.map stripDeco) (obs.map stripCreation)) ∧
    (∀ (post : List MeasHook) (m : Measurement) (u : Universe),
      Measurement.apply post m u = Measurement.apply (post.map stripMeas) m u) ∧
    (∀ (deco : List DecoHook) (u : Universe),
      (runDecoLog deco u).1 = deco.foldl (fun w hk => (hk w).1) u) ∧
    (∀ (obs : List CreationHook) (u : Universe) (st : String),
      (runCreationLog obs u st).1 = obs.foldl (fun w hk => (hk w st).1) u) ∧
    (∀ (post : List MeasHook) (u : Universe) (o : String),
      (runMeasLog post u o).1 = post.foldl (fun w hk => (hk w o).1) u) ∧
    (∀ (hk : DecoHook) (rest : List DecoHook) (u : Universe) (e : String),
      (hk u).2 = some e →
      (runDecoLog (hk :: rest) u).2 =
        ("Decoherence model error: " ++ e) :: (runDecoLog rest (hk u).1).2) := by
  refine ⟨fun deco obs u => (childrenE_strip deco obs u).symm,
    fun post m u => (apply_strip post m u).symm, ?_, ?_, ?_, ?_⟩
  · intro deco u
    induction deco generalizing u with
    | nil => rfl
    | cons hk t ih => simp [runDecoLog, ih]
  · intro obs u st
    induction obs generalizing u with
    | nil => rfl
    | cons hk t ih => simp [runCreationLog, ih]
  · intro post u o
    induction post generalizing u with
    | nil => rfl
    | cons hk t ih => simp [runMeasLog, ih]
  · intro hk rest u e he
    simp [runDecoLog, he]

def w8 : Universe :=
  Universe.node ⟨⟨[("0", (1 : ℂ))]⟩, 1, ["Universe Created"], [], "w8", [], none⟩

theorem C8_hook_errors_nonfatal_witness :
    (runDecoLog [fun u => (u, some "boom")] w8).2 = ["Decoherence model error: boom"] := by
  have h := C8_hook_errors_nonfatal.2.2.2.2.2 (fun u => (u, some "boom")) [] w8 "boom" rfl
  simpa using h

/-! ### C9: observer time travel validation (modelled from the spec) -/

/-- C9: travel_back fails when steps exceeds the trail depth; when 1 ≤
steps ≤ depth it succeeds and relocates current to the trail entry
steps positions back.  The Observer source is absent from the snapshot;
Observer.travelBack is modelled from the spec. -/
theorem C9_travel_back_validates (o : Observer) (steps : Nat) (mode : String) :
    (o.trail.length < steps →
      o.travelBack steps mode = .error "travel_back: steps exceeds trail depth") ∧
    (∀ (h1 : steps ≤ o.trail.length) (h2 : 1 ≤ steps),
      ∃ (hidx : o.trail.length - steps < o.trail.length) (o2 : Observer),
        o.travelBack steps mode = .ok o2 ∧
        o2.current = o.trail.get ⟨o.trail.length - steps, hidx⟩) := by
  constructor
  · intro h
    unfold Observer.travelBack
    rw [if_pos h]
  · intro h1 h2
    have hidx : o.trail.length - steps < o.trail.length := by omega
    have hrun : o.travelBack steps mode = .ok { o with
        current := o.trail.getD (o.trail.length - steps) o.current,
        trail := if mode = "overwrite" then o.trail.take (o.trail.length - steps)
                 else o.trail } := by
      unfold Observer.travelBack
      rw [if_neg (not_lt.mpr h1)]
    refine ⟨hidx, _, hrun, ?_⟩
    show o.trail.getD (o.trail.length - steps) o.current = _
    rw [List.getD_eq_get?, List.get?_eq_get hidx]
    rfl

def w9 : Universe :=
  Universe.node ⟨⟨[("0", (1 : ℂ))]⟩, 1, ["Universe Created"], [], "w9", [], none⟩

theorem C9_travel_back_validates_witness :
    (Observer.travelBack ⟨"alice", [w9], w9⟩ 1 "branch").map (fun o2 => o2.current) =
      .ok w9 ∧
    Observer.travelBack ⟨"alice", [w9], w9⟩ 2 "branch" =
      .error "travel_back: steps exceeds trail depth" := by
  obtain ⟨hidx, o2, hrun, hcur⟩ :=
    (C9_travel_back_validates ⟨"alice", [w9], w9⟩ 1 "branch").2 (by simp) (by simp)
  constructor
  · rw [hrun]
    simp only [Except.map]
    rw [hcur]
    rfl
  · exact (C9_travel_back_validates ⟨"alice", [w9], w9⟩ 2 "branch").1 (by simp)

end
